import Mathlib

/-!
Verification of the message-relay pipeline in `main.py` of the
ssm-johor-penguatkuasa-telegram-bot repository.

The embedding models Python strings as `List Char` (Python `len` is the
list length), Telegram updates as a JSON-like inductive `JValue`
(Python `dict.get`, truthiness and `or` are modelled by `getD`, `truthy`
and `pyOr`), and the observable behaviour of one run of the background
processor `process_and_reply` as a `Trace`: the ordered list of texts
passed to `send_telegram_message` plus the number of calls made to the
OpenAI completion service.  The single completion call that can occur is
driven by an oracle `Except Unit (List Char)`: `Except.error` models
`call_openai` raising (timeout, transport error, ...), `Except.ok r`
models it returning the string `r`.  `send_telegram_message` itself
never raises (its body is wrapped in try/except), so a send is recorded
unconditionally.  Exceptions that `process_and_reply` does not handle at
an inner site (attribute errors from calling `.get` on a non-dict) are
modelled by the `Except.error` result of `processBody`; the outer
try/except of `process_and_reply` converts them into clean termination.
-/

/-- Whitespace test matching Python `str.strip()` / `str.isspace()` for the
ASCII range: space, tab, newline, carriage return, vertical tab, form feed. -/
def isSpace (c : Char) : Bool :=
  c == ' ' || c == '\t' || c == '\n' || c == '\r' || c == Char.ofNat 11 || c == Char.ofNat 12

/-- Drop leading whitespace (the left half of Python `str.strip()`). -/
def trimLeft (s : List Char) : List Char :=
  s.dropWhile isSpace

/-- Drop trailing whitespace (the right half of Python `str.strip()`). -/
def trimRight (s : List Char) : List Char :=
  (s.reverse.dropWhile isSpace).reverse

/-- Python `str.strip()`: drop whitespace from both ends. -/
def trim (s : List Char) : List Char :=
  trimLeft (trimRight s)

/-- The two-character paragraph separator `"\n\n"` used at `main.py:135`. -/
def nn : List Char := ['\n', '\n']

/-- Python `text.split("\n\n")` (`main.py:135`): split on non-overlapping
occurrences of the double newline, scanning left to right; never returns
the empty list (splitting the empty string yields `[""]`). -/
def splitNN : List Char → List (List Char)
  | [] => [[]]
  | [a] => [[a]]
  | a :: b :: rest =>
    if a = '\n' ∧ b = '\n' then
      [] :: splitNN rest
    else
      match splitNN (b :: rest) with
      | [] => [[a]]
      | q :: qs => (a :: q) :: qs

/-- Join a list of paragraphs with the double-newline separator
(the left inverse of `splitNN`). -/
def joinNN : List (List Char) → List Char
  | [] => []
  | [p] => p
  | p :: q :: ps => p ++ nn ++ joinNN (q :: ps)

/-- The paragraph-accumulating send loop of `main.py:136-144`.  The first
argument of the recursion is the remaining list `parts`, the second is the
current `buffer`.  A returned element is one text passed to
`send_telegram_message`.  The mid-loop flush (`main.py:139`) sends
`buffer.strip()` unconditionally; the final flush (`main.py:143-144`) is
guarded by `if buffer.strip():`. -/
def chunkLoop (maxLen : Nat) : List (List Char) → List Char → List (List Char)
  | [], buffer =>
    if trim buffer = [] then [] else [trim buffer]
  | p :: ps, buffer =>
    if maxLen < buffer.length + p.length + 2 then
      trim buffer :: chunkLoop maxLen ps (p ++ nn)
    else
      chunkLoop maxLen ps (buffer ++ p ++ nn)

/-- The chunking step (`main.py:135-144`): split the reply into paragraphs
and run the greedy send loop starting from an empty buffer. -/
def chunks (text : List Char) (maxLen : Nat) : List (List Char) :=
  chunkLoop maxLen (splitNN text) []

/-- The constant `MAX_LEN = 4000` of `main.py:126`. -/
def MAX_LEN : Nat := 4000

/-- Initial acknowledgment text sent at `main.py:107`. -/
def ackMsg : List Char := "Memproses permintaan anda... Sila tunggu sebentar.".data

/-- Failure notice sent at `main.py:119` when the OpenAI call raises. -/
def aiFailMsg : List Char := "Maaf, berlaku ralat pada perkhidmatan AI. Sila cuba lagi kemudian.".data

/-- Notice sent at `main.py:128` when the OpenAI call returns a falsy reply. -/
def noAnswerMsg : List Char := "Maaf, tiada jawapan diterima daripada perkhidmatan AI.".data

/-- Texts passed to `send_telegram_message` by step 3 of `process_and_reply`
(`main.py:124-144`), given the reply string returned by `call_openai`.
Nothing in this step raises, so the surrounding try/except of
`main.py:125/145-150` contributes no behaviour. -/
def sendReplies (reply : List Char) : List (List Char) :=
  if reply = [] then [noAnswerMsg]
  else if reply.length ≤ MAX_LEN then [reply]
  else chunks reply MAX_LEN

/-- JSON-like values: the payloads Telegram delivers and the values Python
dict operations produce in `process_and_reply`. -/
inductive JValue where
  | null
  | bool (b : Bool)
  | int (n : Int)
  | str (s : List Char)
  | arr (xs : List JValue)
  | obj (fields : List (String × JValue))

/-- Python truthiness for `JValue`: `None`, `False`, `0`, `""`, `[]` and
`{}` are falsy. -/
def truthy : JValue → Bool
  | .null => false
  | .bool b => b
  | .int n => n != 0
  | .str s => !s.isEmpty
  | .arr xs => !xs.isEmpty
  | .obj fs => !fs.isEmpty

/-- Python `dict.get(key, default)` on the field list of a dict. -/
def getD : List (String × JValue) → String → JValue → JValue
  | [], _, d => d
  | (k, v) :: rest, key, d => if k = key then v else getD rest key d

/-- Python `a or b`: `a` when `a` is truthy, otherwise `b`. -/
def pyOr (a b : JValue) : JValue :=
  if truthy a then a else b

/-- The extraction prefix of `process_and_reply` (`main.py:85-103`):
`Except.error ()` models an exception reaching the outer handler
(calling `.get` on a non-dict `message` or `chat` raises `AttributeError`),
`Except.ok none` models a clean early `return` (data not a dict, no
message, or `chat_id is None`), and `Except.ok (some (chat_id, text))`
carries the extracted chat id and the text/caption value. -/
def extract2 (data : JValue) : Except Unit (Option (JValue × JValue)) :=
  match data with
  | .obj fields =>
    let message := pyOr (getD fields "message" .null) (getD fields "edited_message" .null)
    if truthy message then
      match message with
      | .obj mf =>
        match getD mf "chat" (.obj []) with
        | .obj cf =>
          let _message_id := getD mf "message_id" .null
          match getD cf "id" .null with
          | .null => .ok none
          | chat_id =>
            .ok (some (chat_id, pyOr (getD mf "text" (.str [])) (getD mf "caption" (.str []))))
        | _ => .error ()
      | _ => .error ()
    else .ok none
  | _ => .ok none

/-- Observable behaviour of one run of the background processor: the texts
passed to `send_telegram_message` in order, and how many times
`call_openai` was invoked. -/
structure Trace where
  sends : List (List Char)
  openaiCalls : Nat
deriving DecidableEq

/-- The body of `process_and_reply` (`main.py:85-150`) without the outer
try/except of `main.py:84/152-153`.  An `Except.error` is an exception
escaping to that outer handler.  The completion oracle stands for the one
possible `call_openai` invocation. -/
def processBody (data : JValue) (oracle : Except Unit (List Char)) : Except Unit Trace :=
  match extract2 data with
  | .error e => .error e
  | .ok none => .ok ⟨[], 0⟩
  | .ok (some _) =>
    match oracle with
    | .error _ => .ok ⟨[ackMsg, aiFailMsg], 1⟩
    | .ok reply => .ok ⟨ackMsg :: sendReplies reply, 1⟩

/-- The background processor `process_and_reply` (`main.py:83-153`): the
outer try/except turns any escaped exception into clean termination (all
escape points are before the first send, so the trace is empty there). -/
def process_and_reply (data : JValue) (oracle : Except Unit (List Char)) : Trace :=
  match processBody data oracle with
  | .ok t => t
  | .error _ => ⟨[], 0⟩

/-- Response body `{"ok": true}` returned by the webhook handler. -/
def okBody : JValue := .obj [("ok", .bool true)]

/-- The webhook handler `telegram_webhook` (`main.py:158-184`).  `parse`
models the outcome of `await request.json()`; `scheduleFails` models
whether `background.add_task` raises.  The result is the HTTP status and
response body. -/
def telegram_webhook (parse : Except Unit JValue) (scheduleFails : Bool) : Nat × JValue :=
  match parse with
  | .error _ => (200, okBody)
  | .ok _data =>
    match (if scheduleFails then Except.error () else Except.ok ()) with
    | .error _ => (200, okBody)
    | .ok _ => (200, okBody)

/-! Supporting lemmas about trimming, splitting and joining. -/

/-- Dropping a predicate-satisfying prefix ignores an all-satisfying block. -/
theorem dropWhile_append_all {p : α → Bool} :
    ∀ (w t : List α), (∀ c ∈ w, p c = true) → List.dropWhile p (w ++ t) = List.dropWhile p t := by
  intro w
  induction w with
  | nil => intro t _; rfl
  | cons c w ih =>
    intro t h
    have hc : p c = true := h c (List.mem_cons_self c w)
    simp only [List.cons_append, List.dropWhile_cons_of_pos hc]
    exact ih t fun x hx => h x (List.mem_cons_of_mem c hx)

/-- Appending all-whitespace text does not change the right trim. -/
theorem trimRight_append_ws (x w : List Char) (h : ∀ c ∈ w, isSpace c = true) :
    trimRight (x ++ w) = trimRight x := by
  unfold trimRight
  rw [List.reverse_append, dropWhile_append_all]
  intro c hc
  exact h c (List.mem_reverse.mp hc)

/-- Appending all-whitespace text does not change the trim. -/
theorem trim_append_ws (x w : List Char) (h : ∀ c ∈ w, isSpace c = true) :
    trim (x ++ w) = trim x := by
  unfold trim
  rw [trimRight_append_ws x w h]

/-- Both characters of the paragraph separator are whitespace. -/
theorem nn_all_space : ∀ c ∈ nn, isSpace c = true := by decide

/-- Trimming never lengthens a string. -/
theorem trim_length_le (s : List Char) : (trim s).length ≤ s.length := by
  unfold trim trimLeft trimRight
  calc ((((s.reverse.dropWhile isSpace).reverse)).dropWhile isSpace).length
      ≤ ((s.reverse.dropWhile isSpace).reverse).length := (List.dropWhile_sublist _).length_le
    _ = (s.reverse.dropWhile isSpace).length := List.length_reverse _
    _ ≤ s.reverse.length := (List.dropWhile_sublist _).length_le
    _ = s.length := List.length_reverse _

/-- A string trims to the empty string exactly when all its characters are
whitespace. -/
theorem trim_eq_nil_iff (s : List Char) : trim s = [] ↔ ∀ c ∈ s, isSpace c = true := by
  constructor
  · intro h c hc
    have hsplit : s = trimRight s ++ (s.reverse.takeWhile isSpace).reverse := by
      unfold trimRight
      rw [← List.reverse_append, List.takeWhile_append_dropWhile, List.reverse_reverse]
    rw [hsplit] at hc
    rcases List.mem_append.mp hc with h1 | h1
    · have h2 : ∀ x ∈ trimLeft (trimRight s), isSpace x = true := by
        intro x hx
        rw [show trimLeft (trimRight s) = trim s from rfl, h] at hx
        exact absurd hx (List.not_mem_nil x)
      have h3 : ∀ x ∈ trimRight s, isSpace x = true := by
        have hsplit2 : trimRight s = (trimRight s).takeWhile isSpace ++ trimLeft (trimRight s) := by
          unfold trimLeft
          rw [List.takeWhile_append_dropWhile]
        intro x hx
        rw [hsplit2] at hx
        rcases List.mem_append.mp hx with h4 | h4
        · exact List.mem_takeWhile_imp h4
        · exact h2 x h4
      exact h3 c h1
    · exact List.mem_takeWhile_imp (List.mem_reverse.mp h1)
  · intro h
    have h1 : trimRight s = [] := by
      unfold trimRight
      rw [List.dropWhile_eq_nil_iff.mpr fun x hx => h x (List.mem_reverse.mp hx)]
      rfl
    unfold trim
    rw [h1]
    rfl

/-- Strings without whitespace-sensitive content: if no character is a
newline it is unchanged by `splitNN`. -/
theorem splitNN_ne_nil : ∀ s : List Char, splitNN s ≠ [] := by
  intro s
  induction s using splitNN.induct with
  | case1 => simp [splitNN]
  | case2 a => simp [splitNN]
  | case3 a b rest hab ih =>
    simp only [splitNN, if_pos hab]
    simp
  | case4 a b rest hab hq ih =>
    simp only [splitNN, if_neg hab, hq]
    simp
  | case5 a b rest hab q qs hq ih =>
    simp only [splitNN, if_neg hab, hq]
    simp

/-- Rejoining the paragraphs of a string with the double newline recovers
the string. -/
theorem joinNN_splitNN : ∀ s : List Char, joinNN (splitNN s) = s := by
  intro s
  induction s using splitNN.induct with
  | case1 => rfl
  | case2 a => rfl
  | case3 a b rest hab ih =>
    obtain ⟨ha, hb⟩ := hab
    subst ha hb
    simp only [splitNN, if_pos (And.intro rfl rfl)]
    rcases hq : splitNN rest with _ | ⟨q, qs⟩
    · exact absurd hq (splitNN_ne_nil rest)
    · rw [hq] at ih
      simp only [joinNN]
      rw [← ih]
      rfl
  | case4 a b rest hab hq ih =>
    exact absurd hq (splitNN_ne_nil (b :: rest))
  | case5 a b rest hab q qs hq ih =>
    simp only [splitNN, if_neg hab, hq]
    rw [hq] at ih
    rcases qs with _ | ⟨q2, qs2⟩
    · simp only [joinNN] at ih ⊢
      rw [ih]
    · simp only [joinNN] at ih ⊢
      simp only [List.cons_append, List.append_assoc] at ih ⊢
      rw [ih]

/-- Joining two nonempty paragraph lists inserts one separator between them. -/
theorem joinNN_append : ∀ (l1 l2 : List (List Char)), l1 ≠ [] → l2 ≠ [] →
    joinNN (l1 ++ l2) = joinNN l1 ++ nn ++ joinNN l2 := by
  intro l1
  induction l1 with
  | nil => intro l2 h1 _; exact absurd rfl h1
  | cons p ps ih =>
    intro l2 _ h2
    rcases ps with _ | ⟨q, qs⟩
    · rcases l2 with _ | ⟨r, rs⟩
      · exact absurd rfl h2
      · simp only [List.singleton_append, joinNN]
    · have h := ih l2 (by simp) h2
      simp only [List.cons_append, List.append_eq, joinNN] at h ⊢
      rw [h]
      simp [List.append_assoc]

/-! Chunk-loop invariants. -/

/-- The buffer of the chunk loop after accumulating the paragraph group
`g`: each paragraph followed by the separator. -/
def bufOf (g : List (List Char)) : List Char :=
  (g.map (fun p => p ++ nn)).flatten

/-- Accumulating one more paragraph extends the buffer. -/
theorem bufOf_snoc (g : List (List Char)) (p : List Char) :
    bufOf (g ++ [p]) = bufOf g ++ p ++ nn := by
  simp [bufOf, List.append_assoc]

/-- The buffer of a nonempty group is its join followed by one separator. -/
theorem bufOf_eq_joinNN (g : List (List Char)) (h : g ≠ []) :
    bufOf g = joinNN g ++ nn := by
  induction g with
  | nil => exact absurd rfl h
  | cons p ps ih =>
    rcases ps with _ | ⟨q, qs⟩
    · simp [bufOf, joinNN]
    · have h2 := ih (by simp)
      simp only [bufOf, List.map_cons, List.flatten_cons] at h2 ⊢
      rw [h2]
      simp [joinNN, List.append_assoc]

/-- Trimming the buffer of a group trims the join of the group. -/
theorem trim_bufOf (g : List (List Char)) : trim (bufOf g) = trim (joinNN g) := by
  rcases hg : g with _ | ⟨p, ps⟩
  · rfl
  · rw [← hg, bufOf_eq_joinNN g (by rw [hg]; simp)]
    exact trim_append_ws (joinNN g) nn nn_all_space

/-- Every character of a join of all-whitespace paragraphs is whitespace. -/
theorem joinNN_all_space (g : List (List Char)) (h : ∀ p ∈ g, ∀ c ∈ p, isSpace c = true) :
    ∀ c ∈ joinNN g, isSpace c = true := by
  induction g with
  | nil => intro c hc; exact absurd hc (List.not_mem_nil c)
  | cons p ps ih =>
    rcases ps with _ | ⟨q, qs⟩
    · intro c hc
      exact h p (List.mem_cons_self p []) c hc
    · intro c hc
      simp only [joinNN, List.append_assoc] at hc
      rcases List.mem_append.mp hc with h1 | h1
      · exact h p (List.mem_cons_self p (q :: qs)) c h1
      · rcases List.mem_append.mp h1 with h2 | h2
        · exact nn_all_space c h2
        · exact ih (fun r hr => h r (List.mem_cons_of_mem p hr)) c h2

/-- Whitespace-only buffer means every accumulated paragraph was
whitespace-only. -/
theorem bufOf_space_of_trim_nil (g : List (List Char)) (h : trim (bufOf g) = []) :
    ∀ p ∈ g, ∀ c ∈ p, isSpace c = true := by
  intro p hp c hc
  have hall := (trim_eq_nil_iff (bufOf g)).mp h
  apply hall
  unfold bufOf
  rw [List.mem_flatten]
  exact ⟨p ++ nn, List.mem_map_of_mem _ hp, List.mem_append_left nn hc⟩

/-- Length bound invariant of the chunk loop: when every remaining
paragraph fits in `maxLen` and the trimmed buffer fits in `maxLen`, every
emitted chunk fits in `maxLen`. -/
theorem chunkLoop_length_le (maxLen : Nat) :
    ∀ (ps : List (List Char)) (b : List Char),
      (∀ p ∈ ps, p.length ≤ maxLen) → (trim b).length ≤ maxLen →
      ∀ c ∈ chunkLoop maxLen ps b, c.length ≤ maxLen := by
  intro ps
  induction ps with
  | nil =>
    intro b _ hb c hc
    simp only [chunkLoop] at hc
    rcases Decidable.em (trim b = []) with h | h
    · rw [if_pos h] at hc
      exact absurd hc (List.not_mem_nil c)
    · rw [if_neg h] at hc
      rcases List.mem_singleton.mp hc with rfl
      exact hb
  | cons p ps ih =>
    intro b hps hb c hc
    have hp : p.length ≤ maxLen := hps p (List.mem_cons_self p ps)
    have hps2 : ∀ q ∈ ps, q.length ≤ maxLen := fun q hq => hps q (List.mem_cons_of_mem p hq)
    simp only [chunkLoop] at hc
    rcases Decidable.em (maxLen < b.length + p.length + 2) with h | h
    · rw [if_pos h] at hc
      rcases List.mem_cons.mp hc with rfl | h2
      · exact hb
      · refine ih (p ++ nn) hps2 ?_ c h2
        rw [trim_append_ws p nn nn_all_space]
        exact le_trans (trim_length_le p) hp
    · rw [if_neg h] at hc
      refine ih (b ++ p ++ nn) hps2 ?_ c hc
      rw [trim_append_ws (b ++ p) nn nn_all_space]
      calc (trim (b ++ p)).length ≤ (b ++ p).length := trim_length_le (b ++ p)
        _ = b.length + p.length := List.length_append b p
        _ ≤ maxLen := by omega

/-- Partition invariant of the chunk loop: starting from the buffer of
group `g`, the emitted chunks are exactly the trimmed joins of an ordered
partition of `g ++ ps` into consecutive groups; or nothing is emitted and
everything left was whitespace-only. -/
theorem chunkLoop_partition (maxLen : Nat) :
    ∀ (ps g : List (List Char)),
      (∃ gs : List (List (List Char)),
        chunkLoop maxLen ps (bufOf g) = gs.map (fun h => trim (joinNN h)) ∧
        gs.flatten = g ++ ps)
      ∨ (chunkLoop maxLen ps (bufOf g) = [] ∧
         ∀ p ∈ g ++ ps, ∀ c ∈ p, isSpace c = true) := by
  intro ps
  induction ps with
  | nil =>
    intro g
    simp only [chunkLoop]
    rcases Decidable.em (trim (bufOf g) = []) with h | h
    · right
      rw [if_pos h]
      exact ⟨rfl, by simpa using bufOf_space_of_trim_nil g h⟩
    · left
      rw [if_neg h]
      exact ⟨[g], by simp [trim_bufOf], by simp⟩
  | cons p ps ih =>
    intro g
    simp only [chunkLoop]
    rcases Decidable.em (maxLen < (bufOf g).length + p.length + 2) with h | h
    · rw [if_pos h]
      have hb : p ++ nn = bufOf [p] := by simp [bufOf]
      rw [hb]
      rcases ih [p] with ⟨gs, h1, h2⟩ | ⟨h1, h2⟩
      · left
        refine ⟨g :: gs, ?_, ?_⟩
        · simp only [List.map_cons, h1, trim_bufOf]
        · simp only [List.flatten_cons, h2]
          simp
      · left
        rw [h1]
        refine ⟨[g ++ p :: ps], ?_, by simp⟩
        have hws : ∀ q ∈ p :: ps, ∀ c ∈ q, isSpace c = true := by simpa using h2
        have habs : trim (joinNN (g ++ p :: ps)) = trim (joinNN g) := by
          rcases hg : g with _ | ⟨g0, gr⟩
          · simp only [List.nil_append]
            rw [(trim_eq_nil_iff (joinNN (p :: ps))).mpr (joinNN_all_space (p :: ps) hws)]
            rfl
          · rw [← hg, joinNN_append g (p :: ps) (by rw [hg]; simp) (by simp),
              List.append_assoc]
            refine trim_append_ws (joinNN g) (nn ++ joinNN (p :: ps)) ?_
            intro c hc
            rcases List.mem_append.mp hc with h3 | h3
            · exact nn_all_space c h3
            · exact joinNN_all_space (p :: ps) hws c h3
        simp [habs, trim_bufOf]
    · rw [if_neg h]
      have hb : bufOf g ++ p ++ nn = bufOf (g ++ [p]) := (bufOf_snoc g p).symm
      rw [hb]
      rcases ih (g ++ [p]) with ⟨gs, h1, h2⟩ | ⟨h1, h2⟩
      · left
        refine ⟨gs, h1, ?_⟩
        rw [h2]
        simp
      · right
        refine ⟨h1, ?_⟩
        intro q hq
        apply h2
        simp only [List.append_assoc] at hq ⊢
        simpa using hq

/-- When the loop emits nothing, everything (buffer plus remaining
paragraphs with their separators) fitted within `maxLen`. -/
theorem chunkLoop_eq_nil_length (maxLen : Nat) :
    ∀ (ps : List (List Char)) (b : List Char), ps ≠ [] → chunkLoop maxLen ps b = [] →
      b.length + ((ps.map (fun p => p.length + 2)).sum) ≤ maxLen := by
  intro ps
  induction ps with
  | nil => intro b hb _; exact absurd rfl hb
  | cons p ps ih =>
    intro b _ hres
    simp only [chunkLoop] at hres
    rcases Decidable.em (maxLen < b.length + p.length + 2) with h | h
    · rw [if_pos h] at hres
      exact absurd hres (List.cons_ne_nil _ _)
    · rw [if_neg h] at hres
      by_cases hps : ps = []
      · subst hps
        simp only [List.map_cons, List.map_nil, List.sum_cons, List.sum_nil]
        omega
      · have h3 := ih (b ++ p ++ nn) hps hres
        simp only [List.length_append, List.map_cons, List.sum_cons] at h3 ⊢
        have hnn : nn.length = 2 := rfl
        omega

/-- The summed lengths of a nonempty paragraph list, counting a separator
for each paragraph, exceed the length of the joined text by exactly two. -/
theorem paraLen_eq (ps : List (List Char)) (h : ps ≠ []) :
    ((ps.map (fun p => p.length + 2)).sum) = (joinNN ps).length + 2 := by
  induction ps with
  | nil => exact absurd rfl h
  | cons p qs ih =>
    by_cases hqs : qs = []
    · subst hqs
      simp [joinNN]
    · have h2 := ih hqs
      rcases qs with _ | ⟨q, rs⟩
      · exact absurd rfl hqs
      · simp only [List.map_cons, List.sum_cons] at h2 ⊢
        simp only [joinNN, List.length_append]
        have hnn : nn.length = 2 := rfl
        omega

/-! Concrete update shapes used to instantiate the claims. -/

/-- Python `text.strip().lower()`: the normalization named by the spec's
trigger check (trim then lowercase). -/
def lowerTrim (s : List Char) : List Char :=
  (trim s).map Char.toLower

/-- A well-formed Telegram update carrying a chat id, a message id and a
text. -/
def mkUpdate (cid mid : Int) (t : List Char) : JValue :=
  .obj [("message", .obj [("chat", .obj [("id", .int cid)]),
                          ("message_id", .int mid),
                          ("text", .str t)])]

/-- A well-formed Telegram update with a chat id and a message id but no
`text` and no `caption` field. -/
def mkUpdateNoText (cid mid : Int) : JValue :=
  .obj [("message", .obj [("chat", .obj [("id", .int cid)]),
                          ("message_id", .int mid)])]

/-- Extraction on a well-formed update yields its chat id and text. -/
theorem extract2_mkUpdate (cid mid : Int) (t : List Char) :
    extract2 (mkUpdate cid mid t) = .ok (some (.int cid, .str t)) := by
  cases t <;> rfl

/-- Extraction on a textless update yields the empty string as text. -/
theorem extract2_mkUpdateNoText (cid mid : Int) :
    extract2 (mkUpdateNoText cid mid) = .ok (some (.int cid, .str [])) := rfl

/-! Claim theorems. -/

/-- C1 (counterexample): on a concrete update whose text is the trigger
word "hello" (and whose message_id is 1), the pipeline makes one
completion-service call (the claim demands zero) and its deliveries are
the acknowledgment followed by the completion reply, not a fixed
welcome text. -/
theorem claim1_counterexample :
    lowerTrim "hello".data = "hello".data ∧
    (process_and_reply (mkUpdate 7 1 "hello".data) (Except.ok "Jawapan ujian".data)).openaiCalls = 1 ∧
    (process_and_reply (mkUpdate 7 1 "hello".data) (Except.ok "Jawapan ujian".data)).sends
      = [ackMsg, "Jawapan ujian".data] := by
  refine ⟨by decide, rfl, rfl⟩

/-- C1 (amended): `process_and_reply` contains no trigger/welcome path:
for an update whose text normalizes (trim, lowercase) to a trigger word
such as "hello" or "start", or whose message_id is 1, the pipeline still
sends the acknowledgment first and makes exactly one completion-service
call; no fixed welcome text exists in the code. -/
theorem no_trigger_shortcut (cid mid : Int) (t : List Char) (o : Except Unit (List Char))
    (_trigger : lowerTrim t = "hello".data ∨ lowerTrim t = "start".data ∨ mid = 1) :
    (process_and_reply (mkUpdate cid mid t) o).openaiCalls = 1 ∧
    (process_and_reply (mkUpdate cid mid t) o).sends.head? = some ackMsg := by
  have he := extract2_mkUpdate cid mid t
  simp only [process_and_reply, processBody, he]
  cases o <;> exact ⟨rfl, rfl⟩

/-- C1 (witness for the amended theorem): the trigger hypothesis holds at
"hello" and the conclusion is realized there. -/
theorem no_trigger_shortcut_witness :
    (lowerTrim "hello".data = "hello".data ∨ lowerTrim "hello".data = "start".data ∨ (5 : Int) = 1) ∧
    ((process_and_reply (mkUpdate 3 5 "hello".data) (Except.ok "ok".data)).openaiCalls = 1 ∧
     (process_and_reply (mkUpdate 3 5 "hello".data) (Except.ok "ok".data)).sends.head? = some ackMsg) :=
  ⟨Or.inl (by decide), no_trigger_shortcut 3 5 "hello".data (Except.ok "ok".data) (Or.inl (by decide))⟩

/-- C2 (counterexample): on a concrete update with no text and no caption
(extracted text empty), the pipeline makes one completion-service call
(the claim demands zero) and sends a non-acknowledgment reply. -/
theorem claim2_counterexample :
    (process_and_reply (mkUpdateNoText 9 2) (Except.ok "Jawapan".data)).openaiCalls = 1 ∧
    (process_and_reply (mkUpdateNoText 9 2) (Except.ok "Jawapan".data)).sends
      = [ackMsg, "Jawapan".data] :=
  ⟨rfl, rfl⟩

/-- C2 (amended): `process_and_reply` has no empty-text guard: for an
update whose message carries neither text nor caption, the pipeline still
sends the acknowledgment first and makes exactly one completion-service
call with the empty string. -/
theorem empty_text_no_guard (cid mid : Int) (o : Except Unit (List Char)) :
    (process_and_reply (mkUpdateNoText cid mid) o).openaiCalls = 1 ∧
    (process_and_reply (mkUpdateNoText cid mid) o).sends.head? = some ackMsg := by
  have he := extract2_mkUpdateNoText cid mid
  simp only [process_and_reply, processBody, he]
  cases o <;> exact ⟨rfl, rfl⟩

/-- C6: whenever the completion call is reached and it fails, the run
delivers the acknowledgment and then exactly one fixed failure notice,
nothing afterwards; the exception is handled at its inner call site, so
nothing escapes to the outer handler or the caller. -/
theorem completion_failure_single_notice (data : JValue)
    (h : 1 ≤ (process_and_reply data (Except.error ())).openaiCalls) :
    process_and_reply data (Except.error ()) = ⟨[ackMsg, aiFailMsg], 1⟩ ∧
    processBody data (Except.error ()) = Except.ok ⟨[ackMsg, aiFailMsg], 1⟩ := by
  rcases he : extract2 data with e | o
  · simp [process_and_reply, processBody, he] at h
  · rcases o with _ | pair
    · simp [process_and_reply, processBody, he] at h
    · exact ⟨by simp [process_and_reply, processBody, he], by simp [processBody, he]⟩

/-- C6 (witness): a concrete update reaching the completion call, with the
call failing. -/
theorem completion_failure_single_notice_witness :
    1 ≤ (process_and_reply (mkUpdateNoText 1 1) (Except.error ())).openaiCalls ∧
    (process_and_reply (mkUpdateNoText 1 1) (Except.error ()) = ⟨[ackMsg, aiFailMsg], 1⟩ ∧
     processBody (mkUpdateNoText 1 1) (Except.error ()) = Except.ok ⟨[ackMsg, aiFailMsg], 1⟩) :=
  ⟨by decide, completion_failure_single_notice (mkUpdateNoText 1 1) (by decide)⟩

/-- C7: for every parse outcome (including malformed JSON) and whether or
not scheduling the background task fails, the webhook handler returns
status 200 with body exactly the object with field ok set to true. -/
theorem webhook_always_ok (parse : Except Unit JValue) (scheduleFails : Bool) :
    telegram_webhook parse scheduleFails = (200, okBody) := by
  cases parse <;> cases scheduleFails <;> rfl

/-- C8: for every input value and completion outcome, the background
processor returns a trace to its caller: when its body runs to completion
the outer handler is transparent, and when the body raises an exception
the outer try/except of `process_and_reply` swallows it and the run
terminates cleanly with no deliveries. -/
theorem pipeline_never_raises (data : JValue) (oracle : Except Unit (List Char)) :
    (∃ t, processBody data oracle = Except.ok t ∧ process_and_reply data oracle = t) ∨
    (∃ e, processBody data oracle = Except.error e ∧ process_and_reply data oracle = ⟨[], 0⟩) := by
  rcases hb : processBody data oracle with e | t
  · exact Or.inr ⟨e, rfl, by simp [process_and_reply, hb]⟩
  · exact Or.inl ⟨t, rfl, by simp [process_and_reply, hb]⟩

/-- C10: whenever the completion call is reached and returns the empty
(falsy) string, the run delivers the acknowledgment and then exactly one
fixed "no answer" notice and terminates; the chunking loop never runs. -/
theorem empty_completion_notice (data : JValue)
    (h : 1 ≤ (process_and_reply data (Except.ok [])).openaiCalls) :
    process_and_reply data (Except.ok []) = ⟨[ackMsg, noAnswerMsg], 1⟩ := by
  rcases he : extract2 data with e | o
  · simp [process_and_reply, processBody, he] at h
  · rcases o with _ | pair
    · simp [process_and_reply, processBody, he] at h
    · simp [process_and_reply, processBody, he, sendReplies]

/-- C10 (witness): a concrete update reaching the completion call, with
the call returning the empty string. -/
theorem empty_completion_notice_witness :
    1 ≤ (process_and_reply (mkUpdate 4 2 "apa khabar".data) (Except.ok [])).openaiCalls ∧
    process_and_reply (mkUpdate 4 2 "apa khabar".data) (Except.ok []) = ⟨[ackMsg, noAnswerMsg], 1⟩ :=
  ⟨by decide, empty_completion_notice (mkUpdate 4 2 "apa khabar".data) (by decide)⟩

/-- Dropping by a predicate no element satisfies is the identity. -/
theorem dropWhile_eq_self_of_none {p : α → Bool} :
    ∀ l : List α, (∀ c ∈ l, p c = false) → List.dropWhile p l = l := by
  intro l h
  cases l with
  | nil => rfl
  | cons c cs =>
    exact List.dropWhile_cons_of_neg (by
      rw [h c (List.mem_cons_self c cs)]
      simp)

/-- A string with no whitespace character is unchanged by trimming. -/
theorem trim_id_of_no_space (s : List Char) (h : ∀ c ∈ s, isSpace c = false) :
    trim s = s := by
  unfold trim trimLeft trimRight
  rw [dropWhile_eq_self_of_none s.reverse (fun c hc => h c (List.mem_reverse.mp hc)),
    List.reverse_reverse,
    dropWhile_eq_self_of_none s h]

/-- A string containing no newline is a single paragraph. -/
theorem splitNN_no_newline : ∀ s : List Char, (∀ c ∈ s, ¬ c = '\n') → splitNN s = [s] := by
  intro s
  induction s using splitNN.induct with
  | case1 => intro _; rfl
  | case2 a => intro _; rfl
  | case3 a b rest hab ih =>
    intro h
    exact absurd hab.1 (h a (List.mem_cons_self a (b :: rest)))
  | case4 a b rest hab hq ih =>
    intro h
    exact absurd hq (splitNN_ne_nil (b :: rest))
  | case5 a b rest hab q qs hq ih =>
    intro h
    have h2 : splitNN (b :: rest) = [b :: rest] :=
      ih fun c hc => h c (List.mem_cons_of_mem a hc)
    rw [h2] at hq
    obtain ⟨rfl, rfl⟩ : q = b :: rest ∧ qs = [] := by
      constructor <;> injection hq <;> simp_all
    simp only [splitNN, if_neg hab, h2]

/-- The 4001-character single-paragraph reply used as failing input. -/
def bigReply : List Char := List.replicate 4001 'a'

/-- No character of the failing input is a newline. -/
theorem bigReply_no_newline : ∀ c ∈ bigReply, ¬ c = '\n' := by
  intro c hc
  rw [List.eq_of_mem_replicate hc]
  decide

/-- No character of the failing input is whitespace. -/
theorem bigReply_no_space : ∀ c ∈ bigReply, isSpace c = false := by
  intro c hc
  rw [List.eq_of_mem_replicate hc]
  rfl

/-- The failing input is nonempty. -/
theorem bigReply_ne_nil : bigReply ≠ [] := by
  have h : bigReply.length = 4001 := List.length_replicate 4001 'a'
  intro hx
  rw [hx] at h
  exact absurd h (by decide)

/-- On the failing input the chunk loop first flushes the empty buffer,
sending the empty string, then the oversized paragraph. -/
theorem chunks_bigReply : chunks bigReply MAX_LEN = [[], bigReply] := by
  unfold chunks
  rw [splitNN_no_newline bigReply bigReply_no_newline]
  have hcond : MAX_LEN < ([] : List Char).length + bigReply.length + 2 := by
    simp only [List.length_nil, Nat.zero_add]
    rw [show bigReply.length = 4001 from List.length_replicate 4001 'a']
    decide
  have htrimnn : trim (bigReply ++ nn) = bigReply := by
    rw [trim_append_ws bigReply nn nn_all_space]
    exact trim_id_of_no_space bigReply bigReply_no_space
  have hne : ¬ trim (bigReply ++ nn) = [] := by
    rw [htrimnn]
    exact bigReply_ne_nil
  simp only [chunkLoop, if_pos hcond, if_neg hne, htrimnn]
  rfl

/-- C3 (bug exhibited): with a completion reply that is a single
4001-character paragraph, the chunk loop's first mid-loop flush sends the
stripped empty buffer, so the empty string is passed to the delivery
client, contradicting the non-empty chunk contract; the oversized
paragraph follows as the second chunk. -/
theorem empty_chunk_emitted :
    chunks bigReply MAX_LEN = [[], bigReply] ∧
    [] ∈ chunks bigReply MAX_LEN := by
  refine ⟨chunks_bigReply, ?_⟩
  rw [chunks_bigReply]
  exact List.mem_cons_self [] [bigReply]

/-- C4: if no single paragraph of the reply exceeds MAX_LEN = 4000, every
chunk produced by the chunking step has length at most MAX_LEN. -/
theorem chunk_length_bound (reply : List Char)
    (h : ∀ p ∈ splitNN reply, p.length ≤ MAX_LEN) :
    ∀ c ∈ chunks reply MAX_LEN, c.length ≤ MAX_LEN := by
  intro c hc
  refine chunkLoop_length_le MAX_LEN (splitNN reply) [] h ?_ c hc
  simp [trim, trimLeft, trimRight]

/-- C4 (witness): a concrete reply with two short paragraphs. -/
theorem chunk_length_bound_witness :
    (∀ p ∈ splitNN "aaa\n\nbbb".data, p.length ≤ MAX_LEN) ∧
    (∀ c ∈ chunks "aaa\n\nbbb".data MAX_LEN, c.length ≤ MAX_LEN) :=
  ⟨by decide, chunk_length_bound "aaa\n\nbbb".data (by decide)⟩

/-- C5 (counterexample): rejoining the delivered chunks with the paragraph
separator does not reproduce the original paragraph sequence: for the
single-paragraph reply of 4001 characters the rejoined text has two
paragraphs (an empty one was inserted by the empty-buffer flush) while the
original has one, a difference no amount of boundary whitespace trimming
accounts for. -/
theorem claim5_counterexample :
    (splitNN (joinNN (chunks bigReply MAX_LEN))).length = 2 ∧
    (splitNN bigReply).length = 1 := by
  constructor
  · rw [chunks_bigReply]
    have hjoin : joinNN [[], bigReply] = '\n' :: '\n' :: bigReply := by
      simp only [joinNN, List.nil_append, nn]
      rfl
    rw [hjoin]
    have hsplit : ∀ rest : List Char, splitNN ('\n' :: '\n' :: rest) = [] :: splitNN rest := by
      intro rest
      simp only [splitNN, and_self, if_true]
    rw [hsplit bigReply, splitNN_no_newline bigReply bigReply_no_newline]
    rfl
  · rw [splitNN_no_newline bigReply bigReply_no_newline]
    rfl

/-- C5 (amended): whenever the chunking step runs (reply longer than
MAX_LEN), there is an ordered partition of the reply's paragraph sequence
into consecutive groups such that the delivered chunks are exactly the
whitespace-trimmed double-newline joins of the groups, in order: no
paragraph is dropped, duplicated or reordered, and each chunk differs from
its group's text only by whitespace trimmed at the chunk boundaries.
A group may be empty, in which case its chunk is the inserted empty
string. -/
theorem chunk_partition (reply : List Char) (h : MAX_LEN < reply.length) :
    ∃ gs : List (List (List Char)),
      gs.flatten = splitNN reply ∧
      chunks reply MAX_LEN = gs.map (fun g => trim (joinNN g)) := by
  rcases chunkLoop_partition MAX_LEN (splitNN reply) [] with ⟨gs, h1, h2⟩ | ⟨h1, h2⟩
  · refine ⟨gs, by simpa using h2, ?_⟩
    have hb : bufOf [] = ([] : List Char) := rfl
    rw [hb] at h1
    exact h1
  · exfalso
    have hne := splitNN_ne_nil reply
    have hb : bufOf [] = ([] : List Char) := rfl
    rw [hb] at h1
    have h3 := chunkLoop_eq_nil_length MAX_LEN (splitNN reply) [] hne h1
    rw [paraLen_eq (splitNN reply) hne, joinNN_splitNN] at h3
    simp only [List.length_nil, Nat.zero_add] at h3
    omega

/-- C5 (witness for the amended theorem): the partition exists for the
4001-character single-paragraph reply. -/
theorem chunk_partition_witness :
    MAX_LEN < (List.replicate 4001 'a').length ∧
    ∃ gs : List (List (List Char)),
      gs.flatten = splitNN (List.replicate 4001 'a') ∧
      chunks (List.replicate 4001 'a') MAX_LEN = gs.map (fun g => trim (joinNN g)) :=
  ⟨by rw [List.length_replicate]; decide,
   chunk_partition (List.replicate 4001 'a') (by rw [List.length_replicate]; decide)⟩

/-- C9: an inbound update that is a dict but carries no truthy message or
edited_message, or whose message's chat has no id (`chat.id` is None),
terminates silently: no send and no completion call. -/
theorem unaddressable_update_silent (fields : List (String × JValue)) (o : Except Unit (List Char))
    (h : truthy (pyOr (getD fields "message" JValue.null) (getD fields "edited_message" JValue.null)) = false
       ∨ ∃ mf cf,
           pyOr (getD fields "message" JValue.null) (getD fields "edited_message" JValue.null) = JValue.obj mf
           ∧ getD mf "chat" (JValue.obj []) = JValue.obj cf
           ∧ getD cf "id" JValue.null = JValue.null) :
    process_and_reply (JValue.obj fields) o = ⟨[], 0⟩ := by
  have hx : extract2 (JValue.obj fields) = Except.ok none := by
    rcases h with h1 | ⟨mf, cf, hm, hc, hid⟩
    · simp [extract2, h1]
    · simp only [extract2]
      rw [hm]
      by_cases hmf : truthy (JValue.obj mf) = true
      · simp only [hmf, if_true]
        simp only [hc, hid]
      · simp only [Bool.not_eq_true] at hmf
        simp [hmf]
  simp [process_and_reply, processBody, hx]

/-- C9 (witness): an update with only an update_id field is a silent
no-op. -/
theorem unaddressable_update_silent_witness :
    (truthy (pyOr (getD [("update_id", JValue.int 5)] "message" JValue.null)
        (getD [("update_id", JValue.int 5)] "edited_message" JValue.null)) = false
      ∨ ∃ mf cf,
          pyOr (getD [("update_id", JValue.int 5)] "message" JValue.null)
            (getD [("update_id", JValue.int 5)] "edited_message" JValue.null) = JValue.obj mf
          ∧ getD mf "chat" (JValue.obj []) = JValue.obj cf
          ∧ getD cf "id" JValue.null = JValue.null) ∧
    process_and_reply (JValue.obj [("update_id", JValue.int 5)]) (Except.ok "x".data) = ⟨[], 0⟩ :=
  ⟨Or.inl (by decide),
   unaddressable_update_silent [("update_id", JValue.int 5)] (Except.ok "x".data) (Or.inl (by decide))⟩

